import Mathlib

/-!
Shallow embedding of the circuit-equilibrium solver (utils/solver.ts) and the
transient tick driver (App.tsx) of this repository.  JavaScript numbers are
modelled as rationals; the comparison `Math.hypot(dx, dy) < 10` is modelled as
`dx^2 + dy^2 < 100`, which is equivalent over the ordered field.  The JS idiom
`v || d` (default on any falsy value, i.e. `undefined` or `0`) is modelled by
`jsOr`.
-/

namespace Circuit

inductive ComponentType where
  | WIRE
  | RESISTOR
  | BATTERY
  | LIGHTBULB
  | SWITCH
  | VOLTMETER
  | AMMETER
  | CAPACITOR
  | INDUCTOR
deriving DecidableEq, Repr

/-- Terminal point `{ x, y, id }` from types.ts. -/
structure Point where
  x : ℚ
  y : ℚ
  id : String
deriving DecidableEq, Repr

/-- The per-type property bag from types.ts; absent fields are `none`. -/
structure Properties where
  resistance : Option ℚ
  voltage : Option ℚ
  isOpen : Option Bool
  capacitance : Option ℚ
  inductance : Option ℚ
deriving DecidableEq, Repr

/-- A circuit element, as in types.ts.  The solver reads `id`, `type`, the two
terminals, the property bag and the `prev*` history fields; the driver also
maintains `current`, `voltageDrop` and the terminal potentials. -/
structure CircuitComponent where
  id : String
  type : ComponentType
  p1 : Point
  p2 : Point
  properties : Properties
  current : ℚ
  voltageDrop : ℚ
  p1Potential : ℚ
  p2Potential : ℚ
  prevCurrent : Option ℚ
  prevP1Potential : Option ℚ
  prevP2Potential : Option ℚ
deriving DecidableEq, Repr

/-- JS `v || d` on an optional number: any falsy value (absent or `0`) yields
the default. -/
def jsOr (v : Option ℚ) (d : ℚ) : ℚ :=
  match v with
  | none => d
  | some x => if x = 0 then d else x

/-- JS `x[i] || 0` on an array of numbers. -/
def getNum (x : List ℚ) (i : ℕ) : ℚ := jsOr x[i]? 0

def EPSILON_RESISTANCE : ℚ := 1 / 1000000

def INFINITE_RESISTANCE : ℚ := 1000000000

/-- First-match lookup in an association list; newest entries are prepended,
so this models a JS `Map` in which later `set`s win. -/
def lookupStr {α : Type} : List (String × α) → String → Option α
  | [], _ => none
  | e :: rest, k => if e.1 = k then some e.2 else lookupStr rest k

/-- The terminal-point list `points` built in solveCircuit lines 21-26 (the
unused `compId` field is omitted). -/
def circuitPoints (comps : List CircuitComponent) : List Point :=
  comps.flatMap (fun c => [c.p1, c.p2])

/-- `Math.hypot(rep.x - q.x, rep.y - q.y) < 10`, squared. -/
def nearRep (rep q : Point) : Bool :=
  decide ((rep.x - q.x) ^ 2 + (rep.y - q.y) ^ 2 < 100)

/-- State of the topology resolution loop: `ptn` is `pointToNode` (joint with
`assignedPoints`, which always holds exactly the keys of `pointToNode`),
`locs` is `nodeLocations`, `count` is `nodeCount`. -/
structure Topo where
  ptn : List (String × ℕ)
  locs : List (ℚ × ℚ)
  count : ℕ
deriving DecidableEq, Repr

/-- The inner scan of solveCircuit lines 45-52: assign every subsequent
unassigned point within the snap distance of the representative `rep` to
node `nodeId`. -/
def scanNear (rep : Point) (nodeId : ℕ) (rest : List Point)
    (m : List (String × ℕ)) : List (String × ℕ) :=
  rest.foldl (fun acc q =>
    if (lookupStr acc q.id).isSome then acc
    else if nearRep rep q then (q.id, nodeId) :: acc else acc) m

/-- The outer loop of solveCircuit lines 35-53. -/
def clusterAux : List Point → Topo → Topo
  | [], t => t
  | p :: rest, t =>
    if (lookupStr t.ptn p.id).isSome then clusterAux rest t
    else
      clusterAux rest
        { ptn := scanNear p t.count rest ((p.id, t.count) :: t.ptn)
          locs := t.locs ++ [(p.x, p.y)]
          count := t.count + 1 }

def resolvePoints (pts : List Point) : Topo := clusterAux pts ⟨[], [], 0⟩

def resolveTopology (comps : List CircuitComponent) : Topo :=
  resolvePoints (circuitPoints comps)

/-- `pointToNode.get(id)!`; resolution always assigns every terminal of the
input, so the default is never taken on solver inputs. -/
def nodeOf (ptn : List (String × ℕ)) (id : String) : ℕ :=
  (lookupStr ptn id).getD 0

abbrev Mat := List (List ℚ)

def getEntry (A : Mat) (i j : ℕ) : ℚ := (A.getD i []).getD j 0

def setEntry (A : Mat) (i j : ℕ) (v : ℚ) : Mat :=
  A.set i ((A.getD i []).set j v)

def addEntry (A : Mat) (i j : ℕ) (v : ℚ) : Mat :=
  setEntry A i j (getEntry A i j + v)

/-- `addConductance` of solveCircuit lines 74-81. -/
def addConductance (n1 n2 : ℕ) (g : ℚ) (A : Mat) : Mat :=
  let A1 := if 0 < n1 then addEntry A (n1 - 1) (n1 - 1) g else A
  let A2 := if 0 < n2 then addEntry A1 (n2 - 1) (n2 - 1) g else A1
  if 0 < n1 ∧ 0 < n2 then
    addEntry (addEntry A2 (n1 - 1) (n2 - 1) (-g)) (n2 - 1) (n1 - 1) (-g)
  else A2

/-- `addCurrentSource` of solveCircuit lines 83-89: current of magnitude `src`
flowing from node `n1` to node `n2`. -/
def addCurrentSource (n1 n2 : ℕ) (src : ℚ) (Z : List ℚ) : List ℚ :=
  let Z1 := if 0 < n1 then Z.set (n1 - 1) (Z.getD (n1 - 1) 0 - src) else Z
  if 0 < n2 then Z1.set (n2 - 1) (Z1.getD (n2 - 1) 0 + src) else Z1

def capacitanceOf (comp : CircuitComponent) : ℚ :=
  jsOr comp.properties.capacitance (1 / 10000)

def inductanceOf (comp : CircuitComponent) : ℚ :=
  jsOr comp.properties.inductance 1

def resistanceOf (comp : CircuitComponent) : ℚ :=
  jsOr comp.properties.resistance 10

/-- `prevP1Potential - prevP2Potential` with the JS `|| 0` defaults. -/
def prevVoltage (comp : CircuitComponent) : ℚ :=
  jsOr comp.prevP1Potential 0 - jsOr comp.prevP2Potential 0

/-- The per-element (conductance, parallel current source) pair computed by
solveCircuit lines 100-149.  A Battery returns from the stamping loop before
this computation, so the `BATTERY` row of this table is never used. -/
def nortonModel (dt : ℚ) (comp : CircuitComponent) : ℚ × ℚ :=
  match comp.type with
  | .RESISTOR | .LIGHTBULB => (1 / resistanceOf comp, 0)
  | .SWITCH =>
      (1 / (if comp.properties.isOpen.getD false then INFINITE_RESISTANCE
            else EPSILON_RESISTANCE), 0)
  | .WIRE | .AMMETER => (1 / EPSILON_RESISTANCE, 0)
  | .VOLTMETER => (1 / INFINITE_RESISTANCE, 0)
  | .CAPACITOR =>
      if 0 < dt then
        let g := capacitanceOf comp / dt
        (g, -g * prevVoltage comp)
      else (1 / INFINITE_RESISTANCE, 0)
  | .INDUCTOR =>
      if 0 < dt then (dt / inductanceOf comp, jsOr comp.prevCurrent 0)
      else (1 / EPSILON_RESISTANCE, 0)
  | .BATTERY => (0, 0)

/-- One iteration of the component-stamping loop, solveCircuit lines 92-155. -/
def stampOne (ptn : List (String × ℕ)) (dt : ℚ) (AZ : Mat × List ℚ)
    (comp : CircuitComponent) : Mat × List ℚ :=
  if comp.type = .BATTERY then AZ
  else
    let n1 := nodeOf ptn comp.p1.id
    let n2 := nodeOf ptn comp.p2.id
    if n1 = n2 then AZ
    else
      let gi := nortonModel dt comp
      let A := addConductance n1 n2 gi.1 AZ.1
      let Z := if gi.2 ≠ 0 then addCurrentSource n1 n2 gi.2 AZ.2 else AZ.2
      (A, Z)

def stampComponents (ptn : List (String × ℕ)) (dt : ℚ)
    (comps : List CircuitComponent) (AZ : Mat × List ℚ) : Mat × List ℚ :=
  comps.foldl (stampOne ptn dt) AZ

def voltageSources (comps : List CircuitComponent) : List CircuitComponent :=
  comps.filter (fun c => decide (c.type = .BATTERY))

/-- One iteration of the voltage-source stamping loop, solveCircuit
lines 158-173.  Note that (unlike the component loop) it performs no
`n1 = n2` self-loop check, and it assigns (not accumulates) its entries. -/
def stampVS (ptn : List (String × ℕ)) (nodeCount : ℕ) (AZ : Mat × List ℚ)
    (p : ℕ × CircuitComponent) : Mat × List ℚ :=
  let n1 := nodeOf ptn p.2.p1.id
  let n2 := nodeOf ptn p.2.p2.id
  let vIndex := (nodeCount - 1) + p.1
  let A1 := if 0 < n1 then
      setEntry (setEntry AZ.1 vIndex (n1 - 1) 1) (n1 - 1) vIndex 1
    else AZ.1
  let A2 := if 0 < n2 then
      setEntry (setEntry A1 vIndex (n2 - 1) (-1)) (n2 - 1) vIndex (-1)
    else A1
  (A2, AZ.2.set vIndex (jsOr p.2.properties.voltage 9))

def stampVoltageSources (ptn : List (String × ℕ)) (nodeCount : ℕ)
    (vs : List CircuitComponent) (AZ : Mat × List ℚ) : Mat × List ℚ :=
  vs.enum.foldl (stampVS ptn nodeCount) AZ

def mSizeOf (comps : List CircuitComponent) (nodeCount : ℕ) : ℕ :=
  (nodeCount - 1) + (voltageSources comps).length

/-- Assembly of the MNA system `A x = Z` (solveCircuit lines 60-173). -/
def assembleSystem (comps : List CircuitComponent) (dt : ℚ) : Mat × List ℚ :=
  let t := resolveTopology comps
  let m := mSizeOf comps t.count
  let A0 : Mat := List.replicate m (List.replicate m 0)
  let Z0 : List ℚ := List.replicate m 0
  stampVoltageSources t.ptn t.count (voltageSources comps)
    (stampComponents t.ptn dt comps (A0, Z0))

def TOL : ℚ := 1 / 10000000000

def getRow (M : Mat) (i : ℕ) : List ℚ := M.getD i []

/-- The JS destructuring swap of rows `i` and `j`. -/
def swapRows (M : Mat) (i j : ℕ) : Mat :=
  (M.set i (getRow M j)).set j (getRow M i)

def swapVals (x : List ℚ) (i j : ℕ) : List ℚ :=
  (x.set i (x.getD j 0)).set j (x.getD i 0)

/-- Partial-pivot selection (gaussianElimination lines 250-253): the first row
in `i..n-1` of strictly maximal `|M[k][i]|`. -/
def pivotRow (M : Mat) (i n : ℕ) : ℕ :=
  (List.range (n - (i + 1))).foldl (fun maxRow k0 =>
    if |getEntry M (i + 1 + k0) i| > |getEntry M maxRow i| then i + 1 + k0
    else maxRow) i

/-- Row operation `M[k][j] -= factor * M[i][j]` for `j = i..n-1`
(gaussianElimination line 263). -/
def elimRow (M : Mat) (i k n : ℕ) (factor : ℚ) : Mat :=
  (List.range (n - i)).foldl (fun Mm j0 =>
    setEntry Mm k (i + j0)
      (getEntry Mm k (i + j0) - factor * getEntry Mm i (i + j0))) M

/-- One column of forward elimination (gaussianElimination lines 250-264):
pivot, swap, and (unless the pivot is below tolerance) eliminate below. -/
def elimStep (n : ℕ) (st : Mat × List ℚ) (i : ℕ) : Mat × List ℚ :=
  let maxRow := pivotRow st.1 i n
  let M := swapRows st.1 i maxRow
  let x := swapVals st.2 i maxRow
  if |getEntry M i i| < TOL then (M, x)
  else
    (List.range (n - (i + 1))).foldl (fun Mx k0 =>
      let k := i + 1 + k0
      let factor := getEntry Mx.1 k i / getEntry Mx.1 i i
      (elimRow Mx.1 i k n factor,
       Mx.2.set k (Mx.2.getD k 0 - factor * Mx.2.getD i 0))) (M, x)

/-- One row of back substitution (gaussianElimination lines 268-272); the
result entry is written only when the final diagonal exceeds tolerance. -/
def backSubStep (M : Mat) (x : List ℚ) (n : ℕ) (result : List ℚ) (i : ℕ) :
    List ℚ :=
  let sum := (List.range (n - (i + 1))).foldl
    (fun s j0 => s + getEntry M i (i + 1 + j0) * result.getD (i + 1 + j0) 0) 0
  if |getEntry M i i| > TOL then result.set i ((x.getD i 0 - sum) / getEntry M i i)
  else result

def backSub (M : Mat) (x : List ℚ) (n : ℕ) : List ℚ :=
  (List.range n).foldl (fun result i0 => backSubStep M x n result (n - 1 - i0))
    (List.replicate n 0)

/-- `gaussianElimination` (solver lines 243-274). -/
def gaussianElimination (A : Mat) (b : List ℚ) : List ℚ :=
  let n := A.length
  if n = 0 then []
  else
    let st := (List.range n).foldl (elimStep n) (A, b)
    backSub st.1 st.2 n

/-- The `nodePotentials` map of solveCircuit lines 179-184, read back with the
trailing `|| 0` of lines 190-191 and 199-200: ground is `0`, node `k + 1`
holds `x[k] || 0`, every other key misses and defaults to `0`. -/
def nodePotential (x : List ℚ) (nodeCount : ℕ) (n : ℕ) : ℚ :=
  if n = 0 then 0
  else if n < nodeCount then getNum x (n - 1)
  else 0

/-- JS `Array.prototype.findIndex`, as an option instead of `-1`. -/
def findIndexFrom {α : Type} (p : α → Bool) : List α → ℕ → Option ℕ
  | [], _ => none
  | a :: rest, n => if p a then some n else findIndexFrom p rest (n + 1)

def findIndex {α : Type} (p : α → Bool) (l : List α) : Option ℕ :=
  findIndexFrom p l 0

/-- The per-element current of solveCircuit lines 196-238.  `none` occurs only
when a Battery is missing from `vs` (impossible on solver inputs, where `vs`
is the Battery filter of the element list). -/
def elementCurrent (vs : List CircuitComponent) (nodeCount : ℕ) (x : List ℚ)
    (dt : ℚ) (ptn : List (String × ℕ)) (comp : CircuitComponent) : Option ℚ :=
  let v1 := nodePotential x nodeCount (nodeOf ptn comp.p1.id)
  let v2 := nodePotential x nodeCount (nodeOf ptn comp.p2.id)
  match comp.type with
  | .BATTERY =>
      match findIndex (fun v => decide (v.id = comp.id)) vs with
      | some idx => some (getNum x ((nodeCount - 1) + idx))
      | none => none
  | .CAPACITOR =>
      if 0 < dt then
        some ((capacitanceOf comp / dt) * ((v1 - v2) - prevVoltage comp))
      else some 0
  | .INDUCTOR =>
      if 0 < dt then
        some (jsOr comp.prevCurrent 0 + (v1 - v2) * (dt / inductanceOf comp))
      else some ((v1 - v2) / EPSILON_RESISTANCE)
  | ty =>
      let r : ℚ :=
        if ty = .RESISTOR ∨ ty = .LIGHTBULB then resistanceOf comp
        else if ty = .SWITCH then
          (if comp.properties.isOpen.getD false then INFINITE_RESISTANCE
           else EPSILON_RESISTANCE)
        else if ty = .VOLTMETER then INFINITE_RESISTANCE
        else EPSILON_RESISTANCE
      some ((v1 - v2) / r)

structure SolveResult where
  pointPotentials : List (String × ℚ)
  componentCurrents : List (String × ℚ)
deriving DecidableEq, Repr

/-- The solved vector `x` of solveCircuit line 176. -/
def solutionOf (comps : List CircuitComponent) (dt : ℚ) : List ℚ :=
  gaussianElimination (assembleSystem comps dt).1 (assembleSystem comps dt).2

/-- The `pointPotentials` map of solveCircuit lines 186-192, as an
association list in which the newest `set` wins. -/
def pointPotentialsOf (comps : List CircuitComponent) (dt : ℚ) :
    List (String × ℚ) :=
  let t := resolveTopology comps
  let x := solutionOf comps dt
  comps.foldl (fun m c =>
    (c.p2.id, nodePotential x t.count (nodeOf t.ptn c.p2.id)) ::
    (c.p1.id, nodePotential x t.count (nodeOf t.ptn c.p1.id)) :: m) []

/-- The `componentCurrents` map of solveCircuit lines 194-238. -/
def componentCurrentsOf (comps : List CircuitComponent) (dt : ℚ) :
    List (String × ℚ) :=
  let t := resolveTopology comps
  let x := solutionOf comps dt
  comps.foldl (fun m c =>
    match elementCurrent (voltageSources comps) t.count x dt t.ptn c with
    | some cur => (c.id, cur) :: m
    | none => m) []

/-- `solveCircuit` (solver lines 12-241). -/
def solveCircuit (comps : List CircuitComponent) (dt : ℚ) : SolveResult :=
  if (resolveTopology comps).count = 0 then ⟨[], []⟩
  else ⟨pointPotentialsOf comps dt, componentCurrentsOf comps dt⟩

/-- One element's state update in the App.tsx physics loop, lines 130-154. -/
def tickElement (pp cc : List (String × ℚ)) (c : CircuitComponent) :
    CircuitComponent :=
  let newCurrent := jsOr (lookupStr cc c.id) 0
  let p1V := jsOr (lookupStr pp c.p1.id) 0
  let p2V := jsOr (lookupStr pp c.p2.id) 0
  let drop : ℚ :=
    if c.type = .BATTERY then jsOr c.properties.voltage 0
    else if c.type = .VOLTMETER then p1V - p2V
    else if c.type = .CAPACITOR then p1V - p2V
    else if c.type = .INDUCTOR then p1V - p2V
    else if c.type = .WIRE ∨ c.type = .SWITCH ∨ c.type = .AMMETER then 0
    else newCurrent * jsOr c.properties.resistance 0
  { c with
    current := newCurrent
    voltageDrop := drop
    p1Potential := p1V
    p2Potential := p2V
    prevCurrent := some newCurrent
    prevP1Potential := some p1V
    prevP2Potential := some p2V }

/-- The candidate next element list of one tick (App.tsx lines 127-154). -/
def tickNext (comps : List CircuitComponent) (dt : ℚ) :
    List CircuitComponent :=
  let r := solveCircuit comps dt
  comps.map (tickElement r.pointPotentials r.componentCurrents)

/-- The update-suppression gate of App.tsx lines 157-160. -/
def hasChanged (next cur : List CircuitComponent) : Bool :=
  (next.zip cur).any (fun pr =>
    decide (|pr.1.current - pr.2.current| > 1 / 10000) ||
    decide (|pr.1.voltageDrop - pr.2.voltageDrop| > 1 / 10000))

/-- One tick of the transient driver (App.tsx lines 123-164): the committed
element list and whether a changed commit was signalled. -/
def tick (comps : List CircuitComponent) (dt : ℚ) :
    List CircuitComponent × Bool :=
  let next := tickNext comps dt
  let ch := hasChanged next comps
  (if ch then next else comps, ch)

/-- Both matrix dimensions equal `m`. -/
def MatDims (m : ℕ) (A : Mat) : Prop :=
  A.length = m ∧ ∀ row ∈ A, row.length = m

/-- Dimension invariant for an assembled pair `(A, Z)`. -/
def SysDims (m : ℕ) (AZ : Mat × List ℚ) : Prop :=
  MatDims m AZ.1 ∧ AZ.2.length = m

/-- Topology-resolution invariant: node locations track the node count, and
every assigned point id belongs to a point of `P` lying strictly within the
snap distance of its node's representative location. -/
def TopoInv (P : List Point) (t : Topo) : Prop :=
  t.locs.length = t.count ∧
  ∀ pid nd, lookupStr t.ptn pid = some nd →
    ∃ loc, t.locs[nd]? = some loc ∧
      ∃ p ∈ P, p.id = pid ∧ (loc.1 - p.x) ^ 2 + (loc.2 - p.y) ^ 2 < 100

def defaultProps : Properties := ⟨none, none, none, none, none⟩

/-- Fixture constructor for concrete instances used by witnesses. -/
def mkComp (id : String) (ty : ComponentType) (p1 p2 : Point)
    (props : Properties) : CircuitComponent :=
  ⟨id, ty, p1, p2, props, 0, 0, 0, 0, some 0, some 0, some 0⟩

def ptA : Point := ⟨0, 0, "a"⟩

def ptB : Point := ⟨9, 0, "b"⟩

def ptC : Point := ⟨18, 0, "c"⟩

/-- A Battery both of whose terminals share one location: a self-loop. -/
def selfLoopBattery : CircuitComponent :=
  mkComp "bat" .BATTERY ⟨0, 0, "bp1"⟩ ⟨0, 0, "bp2"⟩ ⟨none, some 9, none, none, none⟩

/-- A Wire both of whose terminals share one location: a self-loop. -/
def selfLoopWire : CircuitComponent :=
  mkComp "w" .WIRE ⟨0, 0, "w1"⟩ ⟨0, 0, "w2"⟩ defaultProps

/-- A Capacitor with no configured capacitance and nonzero history. -/
def sampleCapacitor : CircuitComponent :=
  ⟨"cap", .CAPACITOR, ⟨0, 0, "cp1"⟩, ⟨100, 0, "cp2"⟩, defaultProps,
    0, 0, 0, 0, some 0, some 5, some 2⟩

/-- An Inductor with no configured inductance and nonzero history. -/
def sampleInductor : CircuitComponent :=
  ⟨"ind", .INDUCTOR, ⟨0, 0, "ip1"⟩, ⟨100, 0, "ip2"⟩, defaultProps,
    0, 0, 0, 0, some 3, some 0, some 0⟩

/-- A Resistor whose resistance is explicitly configured as `0`. -/
def zeroResistor : CircuitComponent :=
  mkComp "r0" .RESISTOR ⟨0, 0, "rp1"⟩ ⟨100, 0, "rp2"⟩
    ⟨some 0, none, none, none, none⟩

/-- A Battery whose voltage is explicitly configured as `0`. -/
def zeroBattery : CircuitComponent :=
  mkComp "b0" .BATTERY ⟨0, 0, "zp1"⟩ ⟨100, 0, "zp2"⟩
    ⟨none, some 0, none, none, none⟩

theorem foldl_rec {α β : Type} (P : β → Prop) (f : β → α → β) (l : List α) :
    ∀ b : β, P b → (∀ x a, a ∈ l → P x → P (f x a)) → P (l.foldl f b) := by
  induction l with
  | nil => intro b hb _; exact hb
  | cons a l ih =>
      intro b hb hf
      simp only [List.foldl_cons]
      exact ih (f b a) (hf b a (List.mem_cons_self a l) hb)
        (fun x a2 ha2 hx => hf x a2 (List.mem_cons_of_mem a ha2) hx)

theorem getD_set_lt {α : Type} (l : List α) (i : ℕ) (v d : α)
    (h : i < l.length) : (l.set i v).getD i d = v := by
  simp [List.getD_eq_getElem?_getD, List.getElem?_set_self h]

theorem getD_set_ne {α : Type} (l : List α) (i j : ℕ) (v d : α)
    (h : i ≠ j) : (l.set i v).getD j d = l.getD j d := by
  simp [List.getD_eq_getElem?_getD, List.getElem?_set_ne h]

theorem matDims_setEntry (m : ℕ) (A : Mat) (i j : ℕ) (v : ℚ)
    (h : MatDims m A) : MatDims m (setEntry A i j v) := by
  obtain ⟨hlen, hrows⟩ := h
  by_cases hi : i < A.length
  · refine ⟨by simpa [setEntry] using hlen, ?_⟩
    intro row hrow
    rcases List.mem_or_eq_of_mem_set hrow with h1 | h2
    · exact hrows row h1
    · subst h2
      rw [List.length_set]
      have hD : A.getD i [] = A[i] := by
        simp [List.getD_eq_getElem?_getD, List.getElem?_eq_getElem hi]
      rw [hD]
      exact hrows _ (List.getElem_mem hi)
  · rw [setEntry, List.set_eq_of_length_le (Nat.le_of_not_lt hi)]
    exact ⟨hlen, hrows⟩

theorem matDims_addEntry (m : ℕ) (A : Mat) (i j : ℕ) (v : ℚ)
    (h : MatDims m A) : MatDims m (addEntry A i j v) :=
  matDims_setEntry m A i j _ h

theorem matDims_addConductance (m : ℕ) (n1 n2 : ℕ) (g : ℚ) (A : Mat)
    (h : MatDims m A) : MatDims m (addConductance n1 n2 g A) := by
  unfold addConductance
  dsimp only
  split
  · exact matDims_addEntry m _ _ _ _
      (matDims_addEntry m _ _ _ _ (by split <;> [skip; skip] <;>
        split at * <;> first
          | exact matDims_addEntry m _ _ _ _ (matDims_addEntry m _ _ _ _ h)
          | exact matDims_addEntry m _ _ _ _ h
          | exact h))
  · split <;> split <;> first
      | exact matDims_addEntry m _ _ _ _ (matDims_addEntry m _ _ _ _ h)
      | exact matDims_addEntry m _ _ _ _ h
      | exact h

theorem length_addCurrentSource (n1 n2 : ℕ) (src : ℚ) (Z : List ℚ) :
    (addCurrentSource n1 n2 src Z).length = Z.length := by
  unfold addCurrentSource
  dsimp only
  split <;> split <;> simp

theorem sysDims_stampOne (m : ℕ) (ptn : List (String × ℕ)) (dt : ℚ)
    (AZ : Mat × List ℚ) (comp : CircuitComponent) (h : SysDims m AZ) :
    SysDims m (stampOne ptn dt AZ comp) := by
  unfold stampOne
  dsimp only
  split
  · exact h
  · split
    · exact h
    · refine ⟨matDims_addConductance m _ _ _ _ h.1, ?_⟩
      split
      · rw [length_addCurrentSource]; exact h.2
      · exact h.2

theorem sysDims_stampComponents (m : ℕ) (ptn : List (String × ℕ)) (dt : ℚ)
    (comps : List CircuitComponent) (AZ : Mat × List ℚ) (h : SysDims m AZ) :
    SysDims m (stampComponents ptn dt comps AZ) :=
  foldl_rec (SysDims m) (stampOne ptn dt) comps AZ h
    (fun x a _ hx => sysDims_stampOne m ptn dt x a hx)

theorem sysDims_stampVS (m : ℕ) (ptn : List (String × ℕ)) (nodeCount : ℕ)
    (AZ : Mat × List ℚ) (p : ℕ × CircuitComponent) (h : SysDims m AZ) :
    SysDims m (stampVS ptn nodeCount AZ p) := by
  unfold stampVS
  dsimp only
  constructor
  · split
    · split
      · exact matDims_setEntry m _ _ _ _ (matDims_setEntry m _ _ _ _
          (matDims_setEntry m _ _ _ _ (matDims_setEntry m _ _ _ _ h.1)))
      · exact matDims_setEntry m _ _ _ _ (matDims_setEntry m _ _ _ _ h.1)
    · split
      · exact matDims_setEntry m _ _ _ _ (matDims_setEntry m _ _ _ _ h.1)
      · exact h.1
  · simpa using h.2

theorem sysDims_stampVoltageSources (m : ℕ) (ptn : List (String × ℕ))
    (nodeCount : ℕ) (vs : List CircuitComponent) (AZ : Mat × List ℚ)
    (h : SysDims m AZ) : SysDims m (stampVoltageSources ptn nodeCount vs AZ) :=
  foldl_rec (SysDims m) (stampVS ptn nodeCount) vs.enum AZ h
    (fun x a _ hx => sysDims_stampVS m ptn nodeCount x a hx)

theorem sysDims_assembleSystem (comps : List CircuitComponent) (dt : ℚ) :
    SysDims (mSizeOf comps (resolveTopology comps).count)
      (assembleSystem comps dt) := by
  unfold assembleSystem
  dsimp only
  apply sysDims_stampVoltageSources
  apply sysDims_stampComponents
  refine ⟨⟨by simp, ?_⟩, by simp⟩
  intro row hrow
  rw [(List.mem_replicate.mp hrow).2]
  simp

theorem length_backSubStep (M : Mat) (x : List ℚ) (n : ℕ) (r : List ℚ)
    (i : ℕ) : (backSubStep M x n r i).length = r.length := by
  unfold backSubStep
  dsimp only
  split <;> simp

theorem length_backSub (M : Mat) (x : List ℚ) (n : ℕ) :
    (backSub M x n).length = n := by
  unfold backSub
  apply foldl_rec (fun r : List ℚ => r.length = n)
  · simp
  · intro r i _ hr
    rw [length_backSubStep]
    exact hr

theorem length_gaussianElimination (A : Mat) (b : List ℚ) :
    (gaussianElimination A b).length = A.length := by
  unfold gaussianElimination
  dsimp only
  split
  · simp [*]
  · exact length_backSub ..

/-- C2: for every element list, the assembled system has exactly
`m = (nodeCount - 1) + (number of Battery elements)` unknowns: `A` is `m × m`,
`Z` has length `m`, and the solution vector handed to result extraction has
length `m`, after every assembly. -/
theorem assembled_system_dimensions (comps : List CircuitComponent) (dt : ℚ) :
    (assembleSystem comps dt).1.length
        = (resolveTopology comps).count - 1 + (voltageSources comps).length ∧
    (∀ row ∈ (assembleSystem comps dt).1,
      row.length
        = (resolveTopology comps).count - 1 + (voltageSources comps).length) ∧
    (assembleSystem comps dt).2.length
        = (resolveTopology comps).count - 1 + (voltageSources comps).length ∧
    (gaussianElimination (assembleSystem comps dt).1
        (assembleSystem comps dt).2).length
        = (resolveTopology comps).count - 1 + (voltageSources comps).length := by
  obtain ⟨⟨h1, h2⟩, h3⟩ := sysDims_assembleSystem comps dt
  exact ⟨h1, h2, h3, by rw [length_gaussianElimination]; exact h1⟩

unseal Rat.add Rat.mul Rat.sub Rat.inv in
theorem assembled_system_dimensions_witness :
    [(0 : ℚ)].length
      = (resolveTopology [selfLoopBattery]).count - 1
        + (voltageSources [selfLoopBattery]).length :=
  (assembled_system_dimensions [selfLoopBattery] 1).2.1 [0] (by decide)

/-- C4: in Gaussian elimination with partial pivoting, a pivot whose magnitude
is below `1e-10` after the row exchange makes the elimination step for that
column a no-op beyond the exchange; back substitution leaves `0` for every
unknown whose final diagonal magnitude is not above the tolerance; and the
solver is total, returning a full-length solution vector for every input,
singular matrices included. -/
theorem elimination_tolerance_behavior :
    (∀ (n : ℕ) (st : Mat × List ℚ) (i : ℕ),
      |getEntry (swapRows st.1 i (pivotRow st.1 i n)) i i| < TOL →
      elimStep n st i =
        (swapRows st.1 i (pivotRow st.1 i n),
         swapVals st.2 i (pivotRow st.1 i n))) ∧
    (∀ (M : Mat) (x : List ℚ) (n i : ℕ), i < n → ¬ |getEntry M i i| > TOL →
      (backSub M x n).getD i 0 = 0) ∧
    (∀ (A : Mat) (b : List ℚ),
      (gaussianElimination A b).length = A.length) := by
  refine ⟨?_, ?_, length_gaussianElimination⟩
  · intro n st i hlt
    unfold elimStep
    dsimp only
    rw [if_pos hlt]
  · intro M x n i _ hdiag
    unfold backSub
    apply foldl_rec (fun r : List ℚ => r.getD i 0 = 0)
    · simp only [List.getD_eq_getElem?_getD, List.getElem?_replicate]
      split <;> rfl
    · intro r i0 _ hr
      unfold backSubStep
      dsimp only
      split
      · rename_i hgt
        by_cases hji : n - 1 - i0 = i
        · rw [hji] at hgt; exact absurd hgt hdiag
        · rw [getD_set_ne _ _ _ _ _ hji]; exact hr
      · exact hr

unseal Rat.add Rat.mul Rat.sub Rat.inv in
theorem elimination_tolerance_behavior_witness :
    (backSub [[(0 : ℚ)]] [(5 : ℚ)] 1).getD 0 0 = 0 :=
  elimination_tolerance_behavior.2.1 [[(0 : ℚ)]] [(5 : ℚ)] 1 0 (by norm_num)
    (by decide)

theorem addCurrentSource_entry (n1 n2 : ℕ) (src : ℚ) (Z : List ℚ) (j : ℕ)
    (hj : j < Z.length) :
    (addCurrentSource n1 n2 src Z).getD j 0 =
      Z.getD j 0 - (if 0 < n1 ∧ j = n1 - 1 then src else 0)
        + (if 0 < n2 ∧ j = n2 - 1 then src else 0) := by
  unfold addCurrentSource
  dsimp only
  by_cases h1 : 0 < n1 <;> by_cases h2 : 0 < n2 <;>
    simp only [h1, h2, if_true, if_false, true_and, false_and, ite_false]
  · by_cases hn2 : j = n2 - 1
    · rw [hn2, getD_set_lt _ _ _ _ (by rw [List.length_set, ← hn2]; exact hj),
        if_pos rfl]
      by_cases h12 : n1 - 1 = n2 - 1
      · rw [← h12, getD_set_lt _ _ _ _ (by rw [h12, ← hn2]; exact hj),
          if_pos rfl]
      · rw [getD_set_ne _ _ _ _ _ h12, if_neg (fun hh => h12 hh.symm)]
        ring
    · rw [getD_set_ne _ _ _ _ _ (fun hh => hn2 hh.symm), if_neg hn2]
      by_cases hn1 : j = n1 - 1
      · rw [hn1, getD_set_lt _ _ _ _ (by rw [← hn1]; exact hj), if_pos rfl]
        ring
      · rw [getD_set_ne _ _ _ _ _ (fun hh => hn1 hh.symm), if_neg hn1]
        ring
  · by_cases hn1 : j = n1 - 1
    · rw [hn1, getD_set_lt _ _ _ _ (by rw [← hn1]; exact hj), if_pos rfl]
      ring
    · rw [getD_set_ne _ _ _ _ _ (fun hh => hn1 hh.symm), if_neg hn1]
      ring
  · by_cases hn2 : j = n2 - 1
    · rw [hn2, getD_set_lt _ _ _ _ (by rw [← hn2]; exact hj), if_pos rfl]
      ring
    · rw [getD_set_ne _ _ _ _ _ (fun hh => hn2 hh.symm), if_neg hn2]
      ring
  · ring

/-- C1: a Capacitor with distinct nodes stamps `G = C / dt` and parallel
current source `I = -G * (prevP1 - prevP2)` when `dt > 0`, and `G = 1/1e9`
with `I = 0` otherwise, with `C` defaulting to `1e-4` when unset; an Inductor
stamps `G = dt / L` and `I = prevCurrent` when `dt > 0`, and `G = 1/1e-6`
with `I = 0` otherwise, with `L` defaulting to `1`; and a stamped current
source between nodes `n1 -> n2` subtracts `I` from the rhs entry of `n1` and
adds `I` to the entry of `n2`, ground entries omitted. -/
theorem norton_stamp_rules (comp : CircuitComponent) (dt : ℚ) :
    (comp.type = .CAPACITOR → 0 < dt →
      nortonModel dt comp =
        (capacitanceOf comp / dt,
         -(capacitanceOf comp / dt) *
           (jsOr comp.prevP1Potential 0 - jsOr comp.prevP2Potential 0))) ∧
    (comp.type = .CAPACITOR → ¬ 0 < dt →
      nortonModel dt comp = (1 / 1000000000, 0)) ∧
    (comp.properties.capacitance = none → capacitanceOf comp = 1 / 10000) ∧
    (comp.type = .INDUCTOR → 0 < dt →
      nortonModel dt comp = (dt / inductanceOf comp, jsOr comp.prevCurrent 0)) ∧
    (comp.type = .INDUCTOR → ¬ 0 < dt →
      nortonModel dt comp = (1 / (1 / 1000000), 0)) ∧
    (comp.properties.inductance = none → inductanceOf comp = 1) ∧
    (∀ (n1 n2 : ℕ) (src : ℚ) (Z : List ℚ) (j : ℕ), j < Z.length →
      (addCurrentSource n1 n2 src Z).getD j 0 =
        Z.getD j 0 - (if 0 < n1 ∧ j = n1 - 1 then src else 0)
          + (if 0 < n2 ∧ j = n2 - 1 then src else 0)) := by
  obtain ⟨cid, cty, cp1, cp2, cprops, ccur, cvd, cpp, cqq, cpc, cp1p, cp2p⟩ :=
    comp
  refine ⟨?_, ?_, ?_, ?_, ?_, ?_, addCurrentSource_entry⟩
  · intro hty hdt
    cases hty
    simp [nortonModel, prevVoltage, if_pos hdt, INFINITE_RESISTANCE]
  · intro hty hdt
    cases hty
    simp [nortonModel, if_neg hdt, INFINITE_RESISTANCE]
  · intro hnone
    obtain ⟨r, v, o, c, i⟩ := cprops
    cases hnone
    rfl
  · intro hty hdt
    cases hty
    simp [nortonModel, if_pos hdt]
  · intro hty hdt
    cases hty
    simp [nortonModel, if_neg hdt, EPSILON_RESISTANCE]
  · intro hnone
    obtain ⟨r, v, o, c, i⟩ := cprops
    cases hnone
    rfl

unseal Rat.add Rat.mul Rat.sub Rat.inv in
theorem norton_stamp_rules_witness :
    nortonModel 0 sampleCapacitor = (1 / 1000000000, 0) ∧
    capacitanceOf sampleCapacitor = 1 / 10000 ∧
    nortonModel (1 / 10) sampleInductor = ((1 / 10 : ℚ) / 1, 3) ∧
    (addCurrentSource 1 2 7 [10, 20]).getD 0 0 = 10 - 7 + 0 :=
  ⟨(norton_stamp_rules sampleCapacitor 0).2.1 rfl (by norm_num),
   (norton_stamp_rules sampleCapacitor 0).2.2.1 rfl,
   (norton_stamp_rules sampleInductor (1 / 10)).2.2.2.1 rfl (by norm_num),
   by
     have h := (norton_stamp_rules sampleCapacitor 1).2.2.2.2.2.2 1 2 7
       [10, 20] 0 (by norm_num)
     rw [h]
     norm_num⟩

/-- C5: extraction computes each element's current by type: a Battery reads
its branch-current unknown, a Capacitor uses `(C/dt)*((V1-V2) - Vprev)` for
`dt > 0` and `0` at `dt = 0`, an Inductor uses `Iprev + (V1-V2)*(dt/L)` for
`dt > 0` and `(V1-V2)/1e-6` at `dt = 0`, and every other element uses
`(V1-V2)/R` with `R = 1e-6` for wire, ammeter and closed switch, `1e9` for
open switch and voltmeter, and the configured resistance (default `10`) for
resistor and lightbulb. -/
theorem extracted_current_formulas (vs : List CircuitComponent)
    (nodeCount : ℕ) (x : List ℚ) (dt : ℚ) (ptn : List (String × ℕ))
    (comp : CircuitComponent) :
    (comp.type = .BATTERY → ∀ idx : ℕ,
      findIndex (fun v => decide (v.id = comp.id)) vs = some idx →
      elementCurrent vs nodeCount x dt ptn comp =
        some (getNum x ((nodeCount - 1) + idx))) ∧
    (comp.type = .CAPACITOR → 0 < dt →
      elementCurrent vs nodeCount x dt ptn comp =
        some ((capacitanceOf comp / dt) *
          ((nodePotential x nodeCount (nodeOf ptn comp.p1.id)
            - nodePotential x nodeCount (nodeOf ptn comp.p2.id))
            - prevVoltage comp))) ∧
    (comp.type = .CAPACITOR → dt = 0 →
      elementCurrent vs nodeCount x dt ptn comp = some 0) ∧
    (comp.type = .INDUCTOR → 0 < dt →
      elementCurrent vs nodeCount x dt ptn comp =
        some (jsOr comp.prevCurrent 0 +
          (nodePotential x nodeCount (nodeOf ptn comp.p1.id)
            - nodePotential x nodeCount (nodeOf ptn comp.p2.id))
            * (dt / inductanceOf comp))) ∧
    (comp.type = .INDUCTOR → dt = 0 →
      elementCurrent vs nodeCount x dt ptn comp =
        some ((nodePotential x nodeCount (nodeOf ptn comp.p1.id)
          - nodePotential x nodeCount (nodeOf ptn comp.p2.id))
          / (1 / 1000000))) ∧
    (comp.type = .WIRE ∨ comp.type = .AMMETER ∨
        (comp.type = .SWITCH ∧ comp.properties.isOpen.getD false = false) →
      elementCurrent vs nodeCount x dt ptn comp =
        some ((nodePotential x nodeCount (nodeOf ptn comp.p1.id)
          - nodePotential x nodeCount (nodeOf ptn comp.p2.id))
          / (1 / 1000000))) ∧
    (comp.type = .VOLTMETER ∨
        (comp.type = .SWITCH ∧ comp.properties.isOpen.getD false = true) →
      elementCurrent vs nodeCount x dt ptn comp =
        some ((nodePotential x nodeCount (nodeOf ptn comp.p1.id)
          - nodePotential x nodeCount (nodeOf ptn comp.p2.id))
          / 1000000000)) ∧
    (comp.type = .RESISTOR ∨ comp.type = .LIGHTBULB →
      elementCurrent vs nodeCount x dt ptn comp =
        some ((nodePotential x nodeCount (nodeOf ptn comp.p1.id)
          - nodePotential x nodeCount (nodeOf ptn comp.p2.id))
          / resistanceOf comp)) ∧
    (comp.properties.resistance = none → resistanceOf comp = 10) := by
  obtain ⟨cid, cty, cp1, cp2, cprops, ccur, cvd, cpp, cqq, cpc, cp1p, cp2p⟩ :=
    comp
  refine ⟨?_, ?_, ?_, ?_, ?_, ?_, ?_, ?_, ?_⟩
  · intro hty idx hfind
    cases hty
    simp [elementCurrent, hfind]
  · intro hty hdt
    cases hty
    simp [elementCurrent, if_pos hdt]
  · intro hty hdt
    cases hty
    simp [elementCurrent, hdt]
  · intro hty hdt
    cases hty
    simp [elementCurrent, if_pos hdt]
  · intro hty hdt
    cases hty
    simp [elementCurrent, hdt, EPSILON_RESISTANCE]
  · intro hty
    rcases hty with hty | hty | ⟨hty, hopen⟩ <;> cases hty <;>
      simp [elementCurrent, EPSILON_RESISTANCE, *]
  · intro hty
    rcases hty with hty | ⟨hty, hopen⟩ <;> cases hty <;>
      simp [elementCurrent, INFINITE_RESISTANCE, *]
  · intro hty
    rcases hty with hty | hty <;> cases hty <;> simp [elementCurrent]
  · intro hnone
    obtain ⟨r, v, o, c, i⟩ := cprops
    cases hnone
    rfl

unseal Rat.add Rat.mul Rat.sub Rat.inv in
theorem extracted_current_formulas_witness :
    elementCurrent [] 1 [] 0 [] sampleCapacitor = some 0 ∧
    elementCurrent [] 1 [] (1 / 10) [] sampleInductor = some 3 :=
  ⟨(extracted_current_formulas [] 1 [] 0 [] sampleCapacitor).2.2.1 rfl rfl,
   by
     have h := (extracted_current_formulas [] 1 [] (1 / 10) []
       sampleInductor).2.2.2.1 rfl (by norm_num)
     rw [h]
     norm_num [sampleInductor, nodePotential, nodeOf, lookupStr, jsOr,
       inductanceOf, defaultProps]⟩

/-- C9: property defaulting triggers on any falsy value, not only on unset
properties: a Resistor or Lightbulb whose resistance is explicitly `0` is
stamped and extracted as `10` ohms, and a Battery whose voltage is explicitly
`0` has its voltage-source row enforce `9` volts. -/
theorem falsy_property_defaults (comp : CircuitComponent) (dt : ℚ)
    (ptn : List (String × ℕ)) (nodeCount : ℕ) (AZ : Mat × List ℚ) (idx : ℕ)
    (vs : List CircuitComponent) (x : List ℚ) :
    ((comp.type = .RESISTOR ∨ comp.type = .LIGHTBULB) →
      comp.properties.resistance = some 0 →
      (nortonModel dt comp).1 = 1 / 10 ∧
      elementCurrent vs nodeCount x dt ptn comp =
        some ((nodePotential x nodeCount (nodeOf ptn comp.p1.id)
          - nodePotential x nodeCount (nodeOf ptn comp.p2.id)) / 10)) ∧
    (comp.properties.voltage = some 0 →
      (stampVS ptn nodeCount AZ (idx, comp)).2 =
        AZ.2.set ((nodeCount - 1) + idx) 9) := by
  obtain ⟨cid, cty, cp1, cp2, cprops, ccur, cvd, cpp, cqq, cpc, cp1p, cp2p⟩ :=
    comp
  obtain ⟨pres, pvolt, popen, pcap, pind⟩ := cprops
  constructor
  · intro hty hres
    cases hres
    rcases hty with hty | hty <;> cases hty <;>
      exact ⟨by simp [nortonModel, resistanceOf, jsOr],
        by simp [elementCurrent, resistanceOf, jsOr]⟩
  · intro hv
    cases hv
    simp [stampVS, jsOr]

theorem falsy_property_defaults_witness :
    (nortonModel 1 zeroResistor).1 = 1 / 10 ∧
    (stampVS [] 1 ([[0]], [0]) (0, zeroBattery)).2 = [(9 : ℚ)] :=
  ⟨((falsy_property_defaults zeroResistor 1 [] 1 ([[0]], [0]) 0 [] []).1
      (Or.inl rfl) rfl).1,
   by
     have h := (falsy_property_defaults zeroBattery 1 [] 1 ([[0]], [0]) 0
       [] []).2 rfl
     rw [h]
     rfl⟩

unseal Rat.add Rat.mul Rat.sub Rat.inv in
/-- C8 counterexample: a Battery whose two terminals resolve to the same node
is NOT skipped by assembly: on the one-element list `[selfLoopBattery]` both
terminals resolve to node `0`, yet the assembled right-hand side is `[9]`
(not all zeros) and the system still carries one branch-current unknown. -/
theorem self_loop_battery_not_skipped :
    nodeOf (resolveTopology [selfLoopBattery]).ptn selfLoopBattery.p1.id =
      nodeOf (resolveTopology [selfLoopBattery]).ptn selfLoopBattery.p2.id ∧
    (assembleSystem [selfLoopBattery] 1).2 = [(9 : ℚ)] ∧
    mSizeOf [selfLoopBattery] (resolveTopology [selfLoopBattery]).count = 1 := by
  decide

/-- C8 amended: every non-Battery element whose two terminals resolve to the
same node is skipped by assembly: it contributes nothing to the matrix, to
the right-hand side, or to the set of unknowns.  (A Battery is exempt: the
voltage-source loop performs no self-loop check, so a self-loop Battery still
receives a branch-current unknown and a right-hand-side entry.) -/
theorem self_loop_skip_amended (comp : CircuitComponent)
    (ptn : List (String × ℕ)) (dt : ℚ) (AZ : Mat × List ℚ)
    (l1 l2 : List CircuitComponent)
    (hty : comp.type ≠ .BATTERY)
    (hself : nodeOf ptn comp.p1.id = nodeOf ptn comp.p2.id) :
    stampOne ptn dt AZ comp = AZ ∧
    voltageSources (l1 ++ comp :: l2) = voltageSources (l1 ++ l2) := by
  constructor
  · unfold stampOne
    rw [if_neg hty]
    dsimp only
    rw [if_pos hself]
  · simp [voltageSources, hty]

unseal Rat.add Rat.mul Rat.sub Rat.inv in
theorem self_loop_skip_amended_witness :
    stampOne (resolveTopology [selfLoopWire]).ptn 1 ([[0]], [0]) selfLoopWire
      = ([[0]], [0]) ∧
    voltageSources [selfLoopWire] = voltageSources [] :=
  self_loop_skip_amended selfLoopWire (resolveTopology [selfLoopWire]).ptn 1
    ([[0]], [0]) [] [] (by decide) (by decide)

theorem lookupStr_cons {α : Type} (a : String × α) (m : List (String × α))
    (k : String) :
    lookupStr (a :: m) k = if a.1 = k then some a.2 else lookupStr m k := rfl

theorem lookupStr_scanNear_mono (rep : Point) (nodeId : ℕ)
    (rest : List Point) (m : List (String × ℕ)) (pid : String) (nd : ℕ)
    (h : lookupStr m pid = some nd) :
    lookupStr (scanNear rep nodeId rest m) pid = some nd := by
  unfold scanNear
  apply foldl_rec (fun acc => lookupStr acc pid = some nd) _ rest m h
  intro acc q _ hacc
  dsimp only
  split
  · exact hacc
  · rename_i hnone
    split
    · rw [lookupStr_cons]
      have hne : ¬ q.id = pid := by
        intro he
        rw [he, hacc] at hnone
        exact hnone rfl
      rw [if_neg hne]
      exact hacc
    · exact hacc

theorem lookupStr_clusterAux_mono (l : List Point) :
    ∀ (t : Topo) (pid : String) (nd : ℕ),
      lookupStr t.ptn pid = some nd →
      lookupStr (clusterAux l t).ptn pid = some nd := by
  induction l with
  | nil => intro t pid nd h; exact h
  | cons p rest ih =>
      intro t pid nd h
      unfold clusterAux
      split
      · exact ih t pid nd h
      · rename_i hnot
        apply ih
        apply lookupStr_scanNear_mono
        rw [lookupStr_cons]
        have hne : ¬ p.id = pid := by
          intro he
          rw [he, h] at hnot
          exact hnot rfl
        rw [if_neg hne]
        exact h

theorem clusterAux_covers (l : List Point) :
    ∀ (t : Topo) (p : Point), p ∈ l →
      (lookupStr (clusterAux l t).ptn p.id).isSome = true := by
  induction l with
  | nil => intro t p hp; cases hp
  | cons q rest ih =>
      intro t p hp
      unfold clusterAux
      split
      · rename_i hsome
        rcases List.mem_cons.mp hp with rfl | hmem
        · obtain ⟨nd, hnd⟩ := Option.isSome_iff_exists.mp hsome
          rw [lookupStr_clusterAux_mono rest t p.id nd hnd]
          rfl
        · exact ih t p hmem
      · rcases List.mem_cons.mp hp with rfl | hmem
        · have h0 : lookupStr ((p.id, t.count) :: t.ptn) p.id = some t.count := by
            rw [lookupStr_cons, if_pos rfl]
          have h1 := lookupStr_scanNear_mono p t.count rest
            ((p.id, t.count) :: t.ptn) p.id t.count h0
          have h2 := lookupStr_clusterAux_mono rest
            ⟨scanNear p t.count rest ((p.id, t.count) :: t.ptn),
             t.locs ++ [(p.x, p.y)], t.count + 1⟩ p.id t.count h1
          rw [h2]
          rfl
        · exact ih _ p hmem

theorem scanNear_inv (P : List Point) (rep : Point) (nodeId : ℕ)
    (locs : List (ℚ × ℚ)) (hrep : locs[nodeId]? = some (rep.x, rep.y)) :
    ∀ (rest : List Point) (m : List (String × ℕ)),
      (∀ q ∈ rest, q ∈ P) →
      (∀ pid nd, lookupStr m pid = some nd →
        ∃ loc, locs[nd]? = some loc ∧
          ∃ p ∈ P, p.id = pid ∧ (loc.1 - p.x) ^ 2 + (loc.2 - p.y) ^ 2 < 100) →
      ∀ pid nd, lookupStr (scanNear rep nodeId rest m) pid = some nd →
        ∃ loc, locs[nd]? = some loc ∧
          ∃ p ∈ P, p.id = pid ∧ (loc.1 - p.x) ^ 2 + (loc.2 - p.y) ^ 2 < 100 := by
  intro rest
  induction rest with
  | nil => intro m _ hm; exact hm
  | cons q rest ih =>
      intro m hsub hm
      have hstep : ∀ pid nd,
          lookupStr (if (lookupStr m q.id).isSome then m
            else if nearRep rep q then (q.id, nodeId) :: m else m) pid
            = some nd →
          ∃ loc, locs[nd]? = some loc ∧
            ∃ p ∈ P, p.id = pid ∧
              (loc.1 - p.x) ^ 2 + (loc.2 - p.y) ^ 2 < 100 := by
        split
        · exact hm
        · split
          · rename_i hnear
            intro pid nd h
            rw [lookupStr_cons] at h
            by_cases he : q.id = pid
            · rw [if_pos he] at h
              injection h with hnd
              subst hnd
              exact ⟨(rep.x, rep.y), hrep, q,
                hsub q (List.mem_cons_self _ _), he,
                by simpa using of_decide_eq_true hnear⟩
            · rw [if_neg he] at h
              exact hm pid nd h
          · exact hm
      exact ih (if (lookupStr m q.id).isSome then m
          else if nearRep rep q then (q.id, nodeId) :: m else m)
        (fun r hr => hsub r (List.mem_cons_of_mem _ hr)) hstep

theorem clusterAux_inv (l : List Point) :
    ∀ (P : List Point) (t : Topo),
      (∀ p ∈ l, p ∈ P) → TopoInv P t → TopoInv P (clusterAux l t) := by
  induction l with
  | nil => intro P t _ h; exact h
  | cons p rest ih =>
      intro P t hsub hinv
      unfold clusterAux
      split
      · exact ih P t (fun q hq => hsub q (List.mem_cons_of_mem _ hq)) hinv
      · apply ih P _ (fun q hq => hsub q (List.mem_cons_of_mem _ hq))
        obtain ⟨hlen, hptn⟩ := hinv
        have hrep : (t.locs ++ [(p.x, p.y)])[t.count]? = some (p.x, p.y) := by
          rw [← hlen]
          exact List.getElem?_concat_length _ _
        constructor
        · show (t.locs ++ [(p.x, p.y)]).length = t.count + 1
          rw [List.length_append, hlen]
          rfl
        · show ∀ pid nd,
            lookupStr (scanNear p t.count rest ((p.id, t.count) :: t.ptn)) pid
              = some nd → _
          apply scanNear_inv P p t.count (t.locs ++ [(p.x, p.y)]) hrep rest
            ((p.id, t.count) :: t.ptn)
            (fun q hq => hsub q (List.mem_cons_of_mem _ hq))
          intro pid nd h
          rw [lookupStr_cons] at h
          by_cases he : p.id = pid
          · rw [if_pos he] at h
            injection h with hnd
            subst hnd
            refine ⟨(p.x, p.y), hrep, p, hsub p (List.mem_cons_self _ _), he, ?_⟩
            norm_num
          · rw [if_neg he] at h
            obtain ⟨loc, hloc, w⟩ := hptn pid nd h
            obtain ⟨hlt, _⟩ := List.getElem?_eq_some_iff.mp hloc
            exact ⟨loc, by rw [List.getElem?_append_left hlt]; exact hloc, w⟩

/-- C3: topology resolution is single-hop, representative-based clustering:
every assigned point lies strictly within the snap distance of its node's
representative location, and membership is never transitive: for all point
lists with distinct ids, if `c` is within 10 units of `b` but not of the
representative `a` of node `nd`, and `b` was grouped into `nd`, then `c` is
not assigned to `nd`. -/
theorem clustering_single_hop (pts : List Point) (a b c : Point) (nd : ℕ)
    (hnodup : (pts.map Point.id).Nodup)
    (hc : c ∈ pts)
    (hrep : (resolvePoints pts).locs[nd]? = some (a.x, a.y))
    (hb : lookupStr (resolvePoints pts).ptn b.id = some nd)
    (hcb : (b.x - c.x) ^ 2 + (b.y - c.y) ^ 2 < 100)
    (hca : ¬ (a.x - c.x) ^ 2 + (a.y - c.y) ^ 2 < 100) :
    (∀ pid nd', lookupStr (resolvePoints pts).ptn pid = some nd' →
      ∃ loc, (resolvePoints pts).locs[nd']? = some loc ∧
        ∃ p ∈ pts, p.id = pid ∧
          (loc.1 - p.x) ^ 2 + (loc.2 - p.y) ^ 2 < 100) ∧
    lookupStr (resolvePoints pts).ptn c.id ≠ some nd := by
  have hinv : TopoInv pts (resolvePoints pts) :=
    clusterAux_inv pts pts ⟨[], [], 0⟩ (fun p hp => hp)
      ⟨rfl, fun pid nd' h => by cases h⟩
  refine ⟨hinv.2, ?_⟩
  intro hcn
  obtain ⟨loc, hloc, p, hp, hpid, hdist⟩ := hinv.2 c.id nd hcn
  rw [hrep] at hloc
  injection hloc with hloc2
  subst hloc2
  have hpc : p = c := List.inj_on_of_nodup_map hnodup hp hc hpid
  subst hpc
  exact hca (by simpa using hdist)

unseal Rat.add Rat.mul Rat.sub Rat.inv in
theorem clustering_single_hop_witness :
    lookupStr (resolvePoints [ptA, ptB, ptC]).ptn ptC.id ≠ some 0 :=
  (clustering_single_hop [ptA, ptB, ptC] ptA ptB ptC 0 (by decide) (by decide)
    (by decide) (by decide) (by decide) (by decide)).2

/-- C6: a tick signals a changed commit exactly when some element's current
or voltageDrop moved by more than `1e-4` in absolute value from its pre-tick
value; when nothing changed the pre-tick list is kept, and on an
already-converged circuit two consecutive ticks never signal a changed
commit. -/
theorem update_suppression_gate (comps : List CircuitComponent) (dt : ℚ) :
    ((tick comps dt).2 = true ↔
      ∃ pr ∈ (tickNext comps dt).zip comps,
        |pr.1.current - pr.2.current| > 1 / 10000 ∨
        |pr.1.voltageDrop - pr.2.voltageDrop| > 1 / 10000) ∧
    ((tick comps dt).2 = false → (tick comps dt).1 = comps) ∧
    ((tick comps dt).2 = false → (tick (tick comps dt).1 dt).2 = false) := by
  have ht : tick comps dt =
      (if hasChanged (tickNext comps dt) comps then tickNext comps dt
       else comps, hasChanged (tickNext comps dt) comps) := rfl
  have hfst : (tick comps dt).2 = false → (tick comps dt).1 = comps := by
    intro h
    rw [ht] at h ⊢
    dsimp only at h ⊢
    simp [h]
  refine ⟨?_, hfst, ?_⟩
  · rw [ht]
    dsimp only
    unfold hasChanged
    simp only [List.any_eq_true, Bool.or_eq_true, decide_eq_true_eq]
  · intro h
    rw [hfst h]
    rw [ht] at h
    dsimp only at h
    rw [ht]
    exact h

theorem update_suppression_gate_witness :
    (tick ([] : List CircuitComponent) 1).2 = false ∧
    (tick (tick ([] : List CircuitComponent) 1).1 1).2 = false :=
  ⟨rfl, (update_suppression_gate [] 1).2.2 rfl⟩

theorem isSome_lookupStr_cons {α : Type} (e : String × α)
    (m : List (String × α)) (k : String)
    (h : (lookupStr m k).isSome = true) :
    (lookupStr (e :: m) k).isSome = true := by
  rw [lookupStr_cons]
  split
  · rfl
  · exact h

theorem pp_fold_mono (f g : CircuitComponent → ℚ)
    (l : List CircuitComponent) :
    ∀ (acc : List (String × ℚ)) (k : String),
      (lookupStr acc k).isSome = true →
      (lookupStr (l.foldl (fun m c => (c.p2.id, g c) :: (c.p1.id, f c) :: m)
        acc) k).isSome = true := by
  induction l with
  | nil => intro acc k h; exact h
  | cons c l ih =>
      intro acc k h
      exact ih _ k (isSome_lookupStr_cons _ _ _ (isSome_lookupStr_cons _ _ _ h))

theorem pp_fold_covers (f g : CircuitComponent → ℚ)
    (l : List CircuitComponent) :
    ∀ (acc : List (String × ℚ)) (comp : CircuitComponent), comp ∈ l →
      (lookupStr (l.foldl (fun m c => (c.p2.id, g c) :: (c.p1.id, f c) :: m)
        acc) comp.p1.id).isSome = true ∧
      (lookupStr (l.foldl (fun m c => (c.p2.id, g c) :: (c.p1.id, f c) :: m)
        acc) comp.p2.id).isSome = true := by
  induction l with
  | nil => intro acc comp h; cases h
  | cons c l ih =>
      intro acc comp h
      rcases List.mem_cons.mp h with rfl | hm
      · constructor
        · exact pp_fold_mono f g l
            ((comp.p2.id, g comp) :: (comp.p1.id, f comp) :: acc) comp.p1.id
            (isSome_lookupStr_cons _ _ _
              (by rw [lookupStr_cons, if_pos rfl]; rfl))
        · exact pp_fold_mono f g l
            ((comp.p2.id, g comp) :: (comp.p1.id, f comp) :: acc) comp.p2.id
            (by rw [lookupStr_cons, if_pos rfl]; rfl)
      · exact ih _ comp hm

theorem cc_fold_mono (h : CircuitComponent → Option ℚ)
    (l : List CircuitComponent) :
    ∀ (acc : List (String × ℚ)) (k : String),
      (lookupStr acc k).isSome = true →
      (lookupStr (l.foldl (fun m c =>
        match h c with
        | some cur => (c.id, cur) :: m
        | none => m) acc) k).isSome = true := by
  induction l with
  | nil => intro acc k hk; exact hk
  | cons c l ih =>
      intro acc k hk
      have hstep : (lookupStr (match h c with
          | some cur => (c.id, cur) :: acc
          | none => acc) k).isSome = true := by
        cases hc : h c with
        | none => exact hk
        | some cur => exact isSome_lookupStr_cons _ _ _ hk
      exact ih _ k hstep

theorem cc_fold_covers (h : CircuitComponent → Option ℚ)
    (l : List CircuitComponent) :
    ∀ (acc : List (String × ℚ)) (comp : CircuitComponent), comp ∈ l →
      (h comp).isSome = true →
      (lookupStr (l.foldl (fun m c =>
        match h c with
        | some cur => (c.id, cur) :: m
        | none => m) acc) comp.id).isSome = true := by
  induction l with
  | nil => intro acc comp hm _; cases hm
  | cons c l ih =>
      intro acc comp hm hsome
      rcases List.mem_cons.mp hm with rfl | hmem
      · have hstep : (lookupStr (match h comp with
            | some cur => (comp.id, cur) :: acc
            | none => acc) comp.id).isSome = true := by
          obtain ⟨cur, hcur⟩ := Option.isSome_iff_exists.mp hsome
          rw [hcur]
          show (lookupStr ((comp.id, cur) :: acc) comp.id).isSome = true
          rw [lookupStr_cons, if_pos rfl]
          rfl
        exact cc_fold_mono h l _ comp.id hstep
      · exact ih _ comp hmem hsome

theorem findIndexFrom_isSome {α : Type} (p : α → Bool) (l : List α) :
    ∀ n : ℕ, (∃ a ∈ l, p a = true) → (findIndexFrom p l n).isSome = true := by
  induction l with
  | nil =>
      rintro n ⟨a, ha, _⟩
      cases ha
  | cons b l ih =>
      rintro n ⟨a, ha, hpa⟩
      unfold findIndexFrom
      split
      · rfl
      · rename_i hpb
        rcases List.mem_cons.mp ha with rfl | hm
        · exact absurd hpa hpb
        · exact ih (n + 1) ⟨a, hm, hpa⟩

theorem elementCurrent_isSome (comps : List CircuitComponent)
    (nodeCount : ℕ) (x : List ℚ) (dt : ℚ) (ptn : List (String × ℕ))
    (comp : CircuitComponent) (hmem : comp ∈ comps) :
    (elementCurrent (voltageSources comps) nodeCount x dt ptn comp).isSome
      = true := by
  obtain ⟨cid, cty, cp1, cp2, cprops, ccur, cvd, cpp, cqq, cpc, cp1p, cp2p⟩ :=
    comp
  cases cty
  case WIRE => rfl
  case RESISTOR => rfl
  case LIGHTBULB => rfl
  case SWITCH => rfl
  case VOLTMETER => rfl
  case AMMETER => rfl
  case CAPACITOR => unfold elementCurrent; dsimp only; split <;> rfl
  case INDUCTOR => unfold elementCurrent; dsimp only; split <;> rfl
  case BATTERY =>
      have hvs : (⟨cid, .BATTERY, cp1, cp2, cprops, ccur, cvd, cpp, cqq, cpc,
          cp1p, cp2p⟩ : CircuitComponent) ∈ voltageSources comps := by
        unfold voltageSources
        rw [List.mem_filter]
        exact ⟨hmem, by simp⟩
      have hfi : (findIndex
          (fun v => decide (v.id = cid)) (voltageSources comps)).isSome
            = true := by
        apply findIndexFrom_isSome
        exact ⟨_, hvs, by simp⟩
      obtain ⟨idx, hidx⟩ := Option.isSome_iff_exists.mp hfi
      unfold elementCurrent
      simp only [hidx]
      rfl

theorem count_mono (l : List Point) : ∀ t : Topo,
    t.count ≤ (clusterAux l t).count := by
  induction l with
  | nil => intro t; exact Nat.le_refl _
  | cons p rest ih =>
      intro t
      unfold clusterAux
      split
      · exact ih t
      · exact Nat.le_trans (Nat.le_succ _)
          (ih ⟨scanNear p t.count rest ((p.id, t.count) :: t.ptn),
               t.locs ++ [(p.x, p.y)], t.count + 1⟩)

theorem count_pos (c : CircuitComponent) (rest : List CircuitComponent) :
    0 < (resolveTopology (c :: rest)).count := by
  have h1 : resolveTopology (c :: rest) =
      clusterAux (c.p2 :: circuitPoints rest)
        ⟨scanNear c.p1 0 (c.p2 :: circuitPoints rest) [(c.p1.id, 0)],
         [(c.p1.x, c.p1.y)], 1⟩ := rfl
  rw [h1]
  exact Nat.lt_of_lt_of_le Nat.one_pos
    (count_mono (c.p2 :: circuitPoints rest)
      ⟨scanNear c.p1 0 (c.p2 :: circuitPoints rest) [(c.p1.id, 0)],
       [(c.p1.x, c.p1.y)], 1⟩)

/-- C7: for every element list and any time step, the solver is total and
returns a potential for every terminal id and a current for every element id
of the input; with zero elements it returns empty maps. -/
theorem solver_total_coverage (comps : List CircuitComponent) (dt : ℚ) :
    solveCircuit [] dt = ⟨[], []⟩ ∧
    ∀ comp ∈ comps,
      (lookupStr (solveCircuit comps dt).pointPotentials
        comp.p1.id).isSome = true ∧
      (lookupStr (solveCircuit comps dt).pointPotentials
        comp.p2.id).isSome = true ∧
      (lookupStr (solveCircuit comps dt).componentCurrents
        comp.id).isSome = true := by
  refine ⟨rfl, ?_⟩
  intro comp hmem
  have hcount : ¬ (resolveTopology comps).count = 0 := by
    cases comps with
    | nil => cases hmem
    | cons c rest => exact Nat.pos_iff_ne_zero.mp (count_pos c rest)
  have hs : solveCircuit comps dt =
      ⟨pointPotentialsOf comps dt, componentCurrentsOf comps dt⟩ := by
    unfold solveCircuit
    rw [if_neg hcount]
  rw [hs]
  have hpp := pp_fold_covers
    (fun c => nodePotential (solutionOf comps dt) (resolveTopology comps).count
      (nodeOf (resolveTopology comps).ptn c.p1.id))
    (fun c => nodePotential (solutionOf comps dt) (resolveTopology comps).count
      (nodeOf (resolveTopology comps).ptn c.p2.id))
    comps [] comp hmem
  have hcc := cc_fold_covers
    (fun c => elementCurrent (voltageSources comps)
      (resolveTopology comps).count (solutionOf comps dt) dt
      (resolveTopology comps).ptn c)
    comps [] comp hmem
    (elementCurrent_isSome comps (resolveTopology comps).count
      (solutionOf comps dt) dt (resolveTopology comps).ptn comp hmem)
  exact ⟨hpp.1, hpp.2, hcc⟩

unseal Rat.add Rat.mul Rat.sub Rat.inv in
theorem solver_total_coverage_witness :
    (lookupStr (solveCircuit [selfLoopWire] 1).componentCurrents
      selfLoopWire.id).isSome = true :=
  ((solver_total_coverage [selfLoopWire] 1).2 selfLoopWire
    (List.mem_cons_self _ _)).2.2

end Circuit
